import Mathlib

set_option autoImplicit false
set_option maxRecDepth 100000

/-!
Shallow embedding of the chaining hash map of
`src/include/HashMaps/chainHashingMap.h`: the two bucket strategies
(`PlainHashBucketT` over an open-addressed inner table, `LinkedListBucketT`
over a sentinel-headed singly linked list) and the outer `_chainHashingMapT`.

Keys and items are specialised to `Nat`; the comparer is equality on `Nat`
(the default `std::equal_to`), and the default-constructed item `ItemT{}`
is `0`.  `size_t` counters are `Nat`s: increments cannot reach `2 ^ 64` in
any reachable state, but decrements can underflow, so every `--`/`-=` on a
`size_t` counter is modelled with an explicit wrap-around.

The inner table `_baseExpandiblePlainMapT` and the hash functor
`BaseHashFunction` come from `plainHashMap.h`, which is not part of the
repository's files here; those two are modelled from the spec and are
marked as such.
-/

namespace ChainHash

/-- Wrap-around bound of the C++ `size_t` counters (64-bit unsigned). -/
def sizeTBound : Nat := 2 ^ 64

/-- Decrement of a `size_t` counter (`--x` / `x -= 1`): wraps at zero. -/
def wdec (n : Nat) : Nat := (n + (sizeTBound - 1)) % sizeTBound

/-- A `LinkedListBucketT` bucket: the nodes after the permanent sentinel
head, most recently attached node first.  The source keeps a separate
`_elemCount`, but every operation keeps it equal to the number of nodes
(`insert`, `safeGet` and `_attachFirst` pair `++_elemCount` with linking one
node, `safeRemove` pairs `--_elemCount` with unlinking one, and
`_detachFirst` is used only while draining a bucket that is about to be
discarded), so the bucket's size is the list length. -/
abbrev ChainBucket := List (Nat × Nat)

namespace ChainBucket

/-- `LinkedListBucketT::insert` (chainHashingMap.h:222): scans the list for
an equal key and returns `false` without mutation when found; otherwise the
new node is linked in right after the sentinel (head of the list). -/
def insert (key item : Nat) (b : ChainBucket) : Bool × ChainBucket :=
  if b.any (fun nd => nd.1 == key) then (false, b)
  else (true, (key, item) :: b)

/-- `LinkedListBucketT::size`. -/
def size (b : ChainBucket) : Nat := b.length

/-- Modelled intent of `LinkedListBucketT::search` (chainHashingMap.h:242):
the source reads `root->key`, but `node`'s field is named `_key`, so the
member function is ill-formed and fails to compile when instantiated (see
C6); the intended linear scan comparing each node's key is modelled. -/
def search (key : Nat) (b : ChainBucket) : Bool :=
  b.any (fun nd => nd.1 == key)

/-- Modelled intent of `LinkedListBucketT::safeRemove`
(chainHashingMap.h:253): the source is ill-formed as written
(`node** root = _root;` initialises a `node**` from a `node*`, and it reads
`(*root)->key` where the field is named `_key`); the documented intent —
unlink and free the first node with a matching key and report whether one
was found — is modelled. -/
def safeRemove (key : Nat) (b : ChainBucket) : Bool × ChainBucket :=
  if b.any (fun nd => nd.1 == key) then
    (true, b.eraseP (fun nd => nd.1 == key))
  else (false, b)

/-- `LinkedListBucketT::remove` (chainHashingMap.h:292): calls `safeRemove`
and discards the result. -/
def remove (key : Nat) (b : ChainBucket) : ChainBucket :=
  (safeRemove key b).2

/-- `LinkedListBucketT::safeGet` (chainHashingMap.h:272): returns the item
of the first node with a matching key; when absent, links a new node with a
default-constructed item right after the sentinel and returns its item. -/
def safeGet (key : Nat) (b : ChainBucket) : Nat × ChainBucket :=
  match b.find? (fun nd => nd.1 == key) with
  | some nd => (nd.2, b)
  | none => (0, (key, 0) :: b)

/-- `LinkedListBucketT::get` (chainHashingMap.h:288): defined as `safeGet`,
so it auto-vivifies as well. -/
def get (key : Nat) (b : ChainBucket) : Nat × ChainBucket :=
  safeGet key b

/-- One iteration of the inner loop of
`LinkedListBucketT::reorganizeBuckets` (chainHashingMap.h:301): the next
node is detached from the old bucket and reattached (`_attachFirst`) at the
head of the bucket `nFunc` selects; `usedBuckets` is incremented when that
bucket's size has just become `1`. -/
def attachStep (nFunc : Nat → Nat) (st : List ChainBucket × Nat)
    (nd : Nat × Nat) : List ChainBucket × Nat :=
  let h := nFunc nd.1
  let b' := nd :: st.1.getD h []
  (st.1.set h b', st.2 + if b'.length == 1 then 1 else 0)

/-- `LinkedListBucketT::reorganizeBuckets` (chainHashingMap.h:296): every
old bucket is drained head-first (the loop bound `oBucket.size()` is the
initial `_elemCount`, which `_detachFirst` deliberately does not decrement,
so exactly all nodes are processed) and each node is reattached at the head
of the new bucket selected by `nFunc`; returns the new bucket array of
length `nSize` together with the count of buckets that received a node. -/
def reorganizeBuckets (old : List ChainBucket) (nSize : Nat)
    (nFunc : Nat → Nat) : List ChainBucket × Nat :=
  old.foldl (fun st ob => ob.foldl (attachStep nFunc) st)
    (List.replicate nSize [], 0)

end ChainBucket

/-- Modelled from the spec: `_baseExpandiblePlainMapT` (plainHashMap.h,
spec §4.2) is not among the repository files here.  It is an open-addressed
table of key-item entries with occupancy flags; only what the bucket code
observes is modelled, namely the sequence of occupied entries.  A raw
`insert` stores the pair in a free slot (the saturation-retry of §4.2/§9 is
treated as reaching a free slot, see C8); `searchAndSave` followed by the
comparer check on `getLastSearchedKey` is a key lookup; `remove` clears the
slot; `operator[]` returns the stored item, presence assumed; `resize` and
`getSize` concern only the capacity and hash internals, which are not
observable through the bucket contract, so they leave the model unchanged. -/
structure PlainMap where
  entries : List (Nat × Nat)
deriving DecidableEq

namespace PlainMap

/-- Lookup of the occupied entry holding `key`, if any. -/
def lookup (key : Nat) (m : PlainMap) : Option Nat :=
  m.entries.lookup key

/-- Raw slot-filling insert (presupposes the key is absent, which is how
`PlainHashBucketT` calls it). -/
def insertRaw (key item : Nat) (m : PlainMap) : PlainMap :=
  ⟨(key, item) :: m.entries⟩

/-- Direct slot clearing of the entry holding `key`. -/
def remove (key : Nat) (m : PlainMap) : PlainMap :=
  ⟨m.entries.eraseP (fun e => e.1 == key)⟩

/-- `operator[]`: the stored item, presence assumed. -/
def getAssume (key : Nat) (m : PlainMap) : Nat :=
  (lookup key m).getD 0

end PlainMap

/-- `PlainHashBucketT`: local element count, the private growth threshold
`_nextResize` (starts at `StartResizeTrehsold = 2`), and the inner
open-addressed map. -/
structure PlainHashBucket where
  elemCount : Nat
  nextResize : Nat
  map : PlainMap
deriving DecidableEq

namespace PlainHashBucket

/-- A default-constructed `PlainHashBucketT`. -/
def empty : PlainHashBucket := ⟨0, 2, ⟨[]⟩⟩

/-- `PlainHashBucketT::search` (chainHashingMap.h:68): `searchAndSave` plus
the comparer check on the found key — with equality on `Nat`, presence of
the key. -/
def search (key : Nat) (b : PlainHashBucket) : Bool :=
  (b.map.lookup key).isSome

/-- `PlainHashBucketT::_insert` (chainHashingMap.h:120): pre-increments the
local count; when it reaches `_nextResize`, the threshold advances by one
and the inner map is regrown at doubled capacity (not observable in the
inner-map model); then the raw insert (with its regrow-and-retry loop)
stores the pair. -/
def insertAux (key item : Nat) (b : PlainHashBucket) : PlainHashBucket :=
  let c := b.elemCount + 1
  { elemCount := c
    nextResize := if c == b.nextResize then b.nextResize + 1 else b.nextResize
    map := b.map.insertRaw key item }

/-- `PlainHashBucketT::insert` (chainHashingMap.h:57): returns `false`
without mutation when the key is already present, otherwise `_insert`s. -/
def insert (key item : Nat) (b : PlainHashBucket) : Bool × PlainHashBucket :=
  if search key b then (false, b) else (true, insertAux key item b)

/-- `PlainHashBucketT::size`. -/
def size (b : PlainHashBucket) : Nat := b.elemCount

/-- `PlainHashBucketT::remove` (chainHashingMap.h:72): unconditional slot
clear and `--_elemCount` (a `size_t`, so it wraps at zero). -/
def remove (key : Nat) (b : PlainHashBucket) : PlainHashBucket :=
  { b with map := b.map.remove key, elemCount := wdec b.elemCount }

/-- `PlainHashBucketT::safeRemove` (chainHashingMap.h:77). -/
def safeRemove (key : Nat) (b : PlainHashBucket) : Bool × PlainHashBucket :=
  if search key b then (true, remove key b) else (false, b)

/-- `PlainHashBucketT::get` (chainHashingMap.h:84): `_map[key]`, presence
assumed. -/
def get (key : Nat) (b : PlainHashBucket) : Nat × PlainHashBucket :=
  (b.map.getAssume key, b)

/-- `PlainHashBucketT::safeGet` (chainHashingMap.h:88): returns the stored
item when present; otherwise inserts a default item through the raw inner
insert — note that the local `_elemCount` is not incremented on this path. -/
def safeGet (key : Nat) (b : PlainHashBucket) : Nat × PlainHashBucket :=
  match b.map.lookup key with
  | some v => (v, b)
  | none => (0, { b with map := b.map.insertRaw key 0 })

/-- One iteration of the inner loop of
`PlainHashBucketT::reorganizeBuckets` (chainHashingMap.h:103): the next
occupied entry is inserted (through the duplicate-checking `insert`, its
result discarded) into the bucket `nFunc` selects, and `usedBuckets` is
incremented when that bucket's size is `1` afterwards. -/
def reorganizeStep (nFunc : Nat → Nat) (st : List PlainHashBucket × Nat)
    (e : Nat × Nat) : List PlainHashBucket × Nat :=
  let h := nFunc e.1
  let b' := (insert e.1 e.2 (st.1.getD h empty)).2
  (st.1.set h b', st.2 + if b'.size == 1 then 1 else 0)

/-- `PlainHashBucketT::reorganizeBuckets` (chainHashingMap.h:96): iterates
every occupied slot of every old bucket and copies it into the new bucket
array of length `nSize`; returns the new array and the count of buckets
that received at least one element. -/
def reorganizeBuckets (old : List PlainHashBucket) (nSize : Nat)
    (nFunc : Nat → Nat) : List PlainHashBucket × Nat :=
  old.foldl (fun st ob => ob.map.entries.foldl (reorganizeStep nFunc) st)
    (List.replicate nSize empty, 0)

end PlainHashBucket

/-- The bucket contract of chainHashingMap.h:15 — what `_chainHashingMapT`
requires of its `BucketT` parameter. -/
structure BucketOps (β : Type) where
  empty : β
  insert : Nat → Nat → β → Bool × β
  search : Nat → β → Bool
  size : β → Nat
  remove : Nat → β → β
  safeRemove : Nat → β → Bool × β
  get : Nat → β → Nat × β
  safeGet : Nat → β → Nat × β
  reorganizeBuckets : List β → Nat → (Nat → Nat) → List β × Nat

/-- The `LinkedListBucketT` instantiation of the bucket contract. -/
def chainOps : BucketOps ChainBucket where
  empty := []
  insert := ChainBucket.insert
  search := ChainBucket.search
  size := ChainBucket.size
  remove := ChainBucket.remove
  safeRemove := ChainBucket.safeRemove
  get := ChainBucket.get
  safeGet := ChainBucket.safeGet
  reorganizeBuckets := ChainBucket.reorganizeBuckets

/-- The `PlainHashBucketT` instantiation of the bucket contract (the
default `BucketT` of `_chainHashingMapT`). -/
def probeOps : BucketOps PlainHashBucket where
  empty := PlainHashBucket.empty
  insert := PlainHashBucket.insert
  search := PlainHashBucket.search
  size := PlainHashBucket.size
  remove := PlainHashBucket.remove
  safeRemove := PlainHashBucket.safeRemove
  get := PlainHashBucket.get
  safeGet := PlainHashBucket.safeGet
  reorganizeBuckets := PlainHashBucket.reorganizeBuckets

/-- Modelled from the spec: `BaseHashFunction` (plainHashMap.h, spec §4.1)
is not among the repository files here; the contract is a deterministic
`key → index ∈ [0, n)` for table size `n`, reconstructed whenever the size
changes; modelled as `key % n`. -/
def hashF (size key : Nat) : Nat := key % size

/-- `_chainHashingMapT`'s state (chainHashingMap.h:349): the size baked
into the current `_hFunc`, the rehash-policy ratio (a C++ `float`, modelled
as a rational — exact at the values the claims exercise), the next rehash
barrier, the element and active-bucket counters, and the bucket array. -/
structure HashMapState (β : Type) where
  hSize : Nat
  rehashPolicy : ℚ
  nextRehash : Nat
  elemCount : Nat
  bucketCount : Nat
  buckets : List β
deriving DecidableEq

/-- `static_cast<size_t>(size * policy)`: the truncated product that sets
`_nextRehash`.  Computed on the ratio's reduced numerator and denominator:
for the nonnegative values reachable here, truncation toward zero of
`size * policy` is `(size * policy.num) / policy.den` in integer division
(a negative product would be undefined behaviour in the source cast). -/
def threshold (size : Nat) (policy : ℚ) : Nat :=
  ((size : ℤ) * policy.num / (policy.den : ℤ)).toNat

/-- `_chainHashingMapT(size)` (chainHashingMap.h:356): fresh buckets, the
default rehash policy `1.0`, and `_nextRehash = size * policy`. -/
def mkMap {β : Type} (ops : BucketOps β) (size : Nat) : HashMapState β :=
  { hSize := size
    rehashPolicy := 1
    nextRehash := threshold size 1
    elemCount := 0
    bucketCount := 0
    buckets := List.replicate size ops.empty }

/-- The bucket `_buckets[h]` (reads out of range cannot happen in reachable
states, where `_buckets.size()` equals the hash function's table size). -/
def bucketAt {β : Type} (ops : BucketOps β) (m : HashMapState β)
    (h : Nat) : β :=
  m.buckets.getD h ops.empty

/-- `_chainHashingMapT::_rehash` (chainHashingMap.h:457): rebuilds the hash
function for `size`, reorganizes every bucket under it, and installs the
new bucket array and active-bucket count. -/
def rehashM {β : Type} (ops : BucketOps β) (m : HashMapState β)
    (size : Nat) : HashMapState β :=
  let pr := ops.reorganizeBuckets m.buckets size (hashF size)
  { m with hSize := size, buckets := pr.1, bucketCount := pr.2 }

/-- `_chainHashingMapT::_resize` (chainHashingMap.h:451): doubles the
bucket-array capacity, recomputes `_nextRehash` for the new size, and
rehashes. -/
def resizeM {β : Type} (ops : BucketOps β) (m : HashMapState β) :
    HashMapState β :=
  let nSize := m.buckets.length * 2
  rehashM ops { m with nextRehash := threshold nSize m.rehashPolicy } nSize

/-- `_chainHashingMapT::insert` (chainHashingMap.h:375): delegates to the
hashed bucket; on success bumps the active-bucket counter when that
bucket's size became exactly `1`, increments the element counter, and
resizes when the counter now exceeds `_nextRehash`. -/
def insertM {β : Type} (ops : BucketOps β) (key item : Nat)
    (m : HashMapState β) : Bool × HashMapState β :=
  let h := hashF m.hSize key
  let pr := ops.insert key item (bucketAt ops m h)
  if pr.1 then
    let m' : HashMapState β :=
      { m with
        buckets := m.buckets.set h pr.2
        bucketCount :=
          if ops.size pr.2 == 1 then m.bucketCount + 1 else m.bucketCount
        elemCount := m.elemCount + 1 }
    (true, if m'.elemCount > m.nextRehash then resizeM ops m' else m')
  else (false, m)

/-- `_chainHashingMapT::search` (chainHashingMap.h:385). -/
def searchM {β : Type} (ops : BucketOps β) (key : Nat)
    (m : HashMapState β) : Bool :=
  ops.search key (bucketAt ops m (hashF m.hSize key))

/-- `_chainHashingMapT::remove` (chainHashingMap.h:389): delegates, then
decrements the active-bucket counter (wrapping `size_t` subtraction) when
the target bucket's size is `0` afterwards.  The map-level `_elemCount` is
not touched. -/
def removeM {β : Type} (ops : BucketOps β) (key : Nat)
    (m : HashMapState β) : HashMapState β :=
  let h := hashF m.hSize key
  let b' := ops.remove key (bucketAt ops m h)
  { m with
    buckets := m.buckets.set h b'
    bucketCount :=
      if ops.size b' == 0 then wdec m.bucketCount else m.bucketCount }

/-- `_chainHashingMapT::safeRemove` (chainHashingMap.h:396): delegates,
then decrements the active-bucket counter (wrapping `size_t` subtraction)
whenever the target bucket's size is `0` afterwards — also when nothing was
removed.  The map-level `_elemCount` is not touched. -/
def safeRemoveM {β : Type} (ops : BucketOps β) (key : Nat)
    (m : HashMapState β) : Bool × HashMapState β :=
  let h := hashF m.hSize key
  let pr := ops.safeRemove key (bucketAt ops m h)
  (pr.1,
    { m with
      buckets := m.buckets.set h pr.2
      bucketCount :=
        if ops.size pr.2 == 0 then wdec m.bucketCount else m.bucketCount })

/-- Models the float comparison `load_factor() > r` of
chainHashingMap.h:427, where `load_factor()` is
`float(_elemCount) / float(_bucketCount)`: `0/0` is NaN and compares
`false`; `e/0` for `e > 0` is `+inf` and compares greater than every
finite `r`; for nonzero `_bucketCount` the exact comparison `r < e / b`,
written cross-multiplied by `b * r.den > 0`, decides as the (correctly
rounded) float quotient does at the counter ranges any claim exercises. -/
def lfGT (e b : Nat) (r : ℚ) : Bool :=
  if b == 0 then !(e == 0) else decide (r.num * (b : ℤ) < (e : ℤ) * (r.den : ℤ))

/-- Models the float comparison `load_factor() < r` of
chainHashingMap.h:431 (NaN and `+inf` both compare `false`); for
`b ≠ 0` the comparison `e / b < r` is cross-multiplied by
`b * r.den > 0`. -/
def lfLT (e b : Nat) (r : ℚ) : Bool :=
  if b == 0 then false else decide ((e : ℤ) * (r.den : ℤ) < r.num * (b : ℤ))

/-- The loop of `_chainHashingMapT::rehash` (chainHashingMap.h:427):
`while (load_factor() > r && tries++ < maxTries) _rehash(_buckets.size());`
— up to `maxTries` same-capacity redistributions. -/
def rehashTries {β : Type} (ops : BucketOps β) (r : ℚ) :
    Nat → HashMapState β → HashMapState β
  | 0, m => m
  | t + 1, m =>
    if lfGT m.elemCount m.bucketCount r then
      rehashTries ops r t (rehashM ops m m.buckets.length)
    else m

/-- `_chainHashingMapT::rehash` (chainHashingMap.h:424): runs the loop and
returns `load_factor() < desiredBucketRatio` on the final state. -/
def rehashPub {β : Type} (ops : BucketOps β) (m : HashMapState β)
    (r : ℚ) (maxTries : Nat) : Bool × HashMapState β :=
  let m' := rehashTries ops r maxTries m
  (lfLT m'.elemCount m'.bucketCount r, m')

/-- `_chainHashingMapT::operator[]` (chainHashingMap.h:438): delegates to
the hashed bucket's auto-vivifying `safeGet`; no counter is updated and no
resize can be triggered. -/
def opIndexM {β : Type} (ops : BucketOps β) (key : Nat)
    (m : HashMapState β) : Nat × HashMapState β :=
  let h := hashF m.hSize key
  let pr := ops.safeGet key (bucketAt ops m h)
  (pr.1, { m with buckets := m.buckets.set h pr.2 })

/-- Modelled intent of `_chainHashingMapT::get` (chainHashingMap.h:434):
the source returns `_buckets.get(key)`, calling `get` on the
`std::vector<BucketT>` itself, which has no such member — the function is
ill-formed and fails to compile when instantiated (see C2).  The intent per
the bucket contract is to delegate to the hashed bucket's `get`. -/
def getIntendedM {β : Type} (ops : BucketOps β) (key : Nat)
    (m : HashMapState β) : Nat × HashMapState β :=
  let h := hashF m.hSize key
  let pr := ops.get key (bucketAt ops m h)
  (pr.1, { m with buckets := m.buckets.set h pr.2 })

/-- All entries stored in a `LinkedListBucketT` bucket array. -/
def chainEntries : List ChainBucket → List (Nat × Nat)
  | [] => []
  | b :: bs => b ++ chainEntries bs

/-- All entries stored in a `PlainHashBucketT` bucket array. -/
def probeEntries : List PlainHashBucket → List (Nat × Nat)
  | [] => []
  | b :: bs => b.map.entries ++ probeEntries bs

/-! Helper lemmas about the bucket folds of the two `reorganizeBuckets`. -/

lemma foldl_chain_flatten {σ : Type} (g : σ → Nat × Nat → σ)
    (old : List ChainBucket) (st : σ) :
    old.foldl (fun s ob => ob.foldl g s) st = (chainEntries old).foldl g st := by
  induction old generalizing st with
  | nil => rfl
  | cons b bs ih => simp [chainEntries, List.foldl_append, ih]

lemma foldl_probe_flatten {σ : Type} (g : σ → Nat × Nat → σ)
    (old : List PlainHashBucket) (st : σ) :
    old.foldl (fun s ob => ob.map.entries.foldl g s) st
      = (probeEntries old).foldl g st := by
  induction old generalizing st with
  | nil => rfl
  | cons b bs ih => simp [probeEntries, List.foldl_append, ih]

lemma getD_set_self {α : Type} (l : List α) (i : Nat) (b d : α)
    (h : i < l.length) : (l.set i b).getD i d = b := by
  induction l generalizing i with
  | nil => simp at h
  | cons a l ih =>
    cases i with
    | zero => rfl
    | succ i => simpa using ih i (by simpa using h)

lemma getD_set_ne {α : Type} (l : List α) (i j : Nat) (b d : α)
    (h : j ≠ i) : (l.set i b).getD j d = l.getD j d := by
  induction l generalizing i j with
  | nil => rfl
  | cons a l ih =>
    cases i with
    | zero =>
      cases j with
      | zero => exact absurd rfl h
      | succ j => simp
    | succ i =>
      cases j with
      | zero => simp
      | succ j => simpa using ih i j (fun hji => h (by simp [hji]))

lemma chainFold_len (f : Nat → Nat) (es : List (Nat × Nat))
    (st : List ChainBucket × Nat) :
    (es.foldl (ChainBucket.attachStep f) st).1.length = st.1.length := by
  induction es generalizing st with
  | nil => rfl
  | cons e es ih => rw [List.foldl_cons, ih]; simp [ChainBucket.attachStep]

lemma probeFold_len (f : Nat → Nat) (es : List (Nat × Nat))
    (st : List PlainHashBucket × Nat) :
    (es.foldl (PlainHashBucket.reorganizeStep f) st).1.length = st.1.length := by
  induction es generalizing st with
  | nil => rfl
  | cons e es ih =>
    rw [List.foldl_cons, ih]; simp [PlainHashBucket.reorganizeStep]

lemma chain_reorganize_len (old : List ChainBucket) (n : Nat) (f : Nat → Nat) :
    (ChainBucket.reorganizeBuckets old n f).1.length = n := by
  unfold ChainBucket.reorganizeBuckets
  rw [foldl_chain_flatten, chainFold_len]
  simp

lemma probe_reorganize_len (old : List PlainHashBucket) (n : Nat)
    (f : Nat → Nat) :
    (PlainHashBucket.reorganizeBuckets old n f).1.length = n := by
  unfold PlainHashBucket.reorganizeBuckets
  rw [foldl_probe_flatten, probeFold_len]
  simp

lemma chain_entries_set_cons (bks : List ChainBucket) (i : Nat)
    (e : Nat × Nat) (h : i < bks.length) :
    (chainEntries (bks.set i (e :: bks.getD i [])) : Multiset (Nat × Nat))
      = e ::ₘ (chainEntries bks : Multiset (Nat × Nat)) := by
  induction bks generalizing i with
  | nil => simp at h
  | cons b bs ih =>
    cases i with
    | zero => simp [chainEntries]
    | succ i =>
      have h' : i < bs.length := by simpa using h
      have hrec := ih i h'
      simp only [List.set, List.getD_cons_succ, chainEntries]
      rw [← Multiset.coe_add, ← Multiset.coe_add, hrec]
      rw [← Multiset.singleton_add, ← Multiset.singleton_add]
      exact (add_left_comm _ _ _)

lemma probe_entries_set_cons (bks : List PlainHashBucket) (i : Nat)
    (e : Nat × Nat) (B : PlainHashBucket) (h : i < bks.length)
    (hB : B.map.entries = e :: (bks.getD i PlainHashBucket.empty).map.entries) :
    (probeEntries (bks.set i B) : Multiset (Nat × Nat))
      = e ::ₘ (probeEntries bks : Multiset (Nat × Nat)) := by
  induction bks generalizing i with
  | nil => simp at h
  | cons b bs ih =>
    cases i with
    | zero =>
      simp only [List.set, probeEntries, List.getD_cons_zero] at hB ⊢
      rw [hB]
      simp [probeEntries]
    | succ i =>
      have h' : i < bs.length := by simpa using h
      have hrec := ih i h' (by simpa using hB)
      simp only [List.set, List.getD_cons_succ, probeEntries]
      rw [← Multiset.coe_add, ← Multiset.coe_add, hrec]
      rw [← Multiset.singleton_add, ← Multiset.singleton_add]
      exact (add_left_comm _ _ _)

lemma chain_bucket_le (bks : List ChainBucket) (i : Nat) :
    ((bks.getD i []) : Multiset (Nat × Nat))
      ≤ (chainEntries bks : Multiset (Nat × Nat)) := by
  induction bks generalizing i with
  | nil => simp
  | cons b bs ih =>
    cases i with
    | zero =>
      simp only [List.getD_cons_zero, chainEntries]
      rw [← Multiset.coe_add]
      exact Multiset.le_add_right _ _
    | succ i =>
      simp only [List.getD_cons_succ, chainEntries]
      rw [← Multiset.coe_add]
      exact le_trans (ih i) (Multiset.le_add_left _ _)

lemma chainFold_entries (f : Nat → Nat) (es : List (Nat × Nat))
    (st : List ChainBucket × Nat)
    (hf : ∀ e ∈ es, f e.1 < st.1.length) :
    (chainEntries (es.foldl (ChainBucket.attachStep f) st).1 : Multiset (Nat × Nat))
      = (es : Multiset (Nat × Nat)) + (chainEntries st.1 : Multiset (Nat × Nat)) := by
  induction es generalizing st with
  | nil => simp
  | cons e es ih =>
    rw [List.foldl_cons]
    have hlen : (ChainBucket.attachStep f st e).1.length = st.1.length := by
      simp [ChainBucket.attachStep]
    rw [ih _ (fun e' he' => by
      rw [hlen]; exact hf e' (List.mem_cons_of_mem _ he'))]
    have hstep : (ChainBucket.attachStep f st e).1
        = st.1.set (f e.1) (e :: st.1.getD (f e.1) []) := rfl
    rw [hstep, chain_entries_set_cons _ _ _ (hf e (List.mem_cons_self _ _))]
    rw [← Multiset.cons_coe, Multiset.cons_add]
    rw [← Multiset.singleton_add, ← Multiset.singleton_add]
    exact (add_left_comm _ _ _).symm

lemma chainFold_mem_mono (f : Nat → Nat) (es : List (Nat × Nat))
    (st : List ChainBucket × Nat) (i : Nat) (e : Nat × Nat)
    (hf : ∀ e' ∈ es, f e'.1 < st.1.length)
    (he : e ∈ st.1.getD i ([] : ChainBucket)) :
    e ∈ (es.foldl (ChainBucket.attachStep f) st).1.getD i ([] : ChainBucket) := by
  induction es generalizing st with
  | nil => exact he
  | cons e' es ih =>
    rw [List.foldl_cons]
    have hlen : (ChainBucket.attachStep f st e').1.length = st.1.length := by
      simp [ChainBucket.attachStep]
    apply ih _ (fun x hx => by rw [hlen]; exact hf x (List.mem_cons_of_mem _ hx))
    show e ∈ (st.1.set (f e'.1) (e' :: st.1.getD (f e'.1) [])).getD i []
    by_cases hi : i = f e'.1
    · subst hi
      rw [getD_set_self _ _ _ _ (hf e' (List.mem_cons_self _ _))]
      exact List.mem_cons_of_mem _ he
    · rw [getD_set_ne _ _ _ _ _ hi]
      exact he

lemma chainFold_mem (f : Nat → Nat) (es : List (Nat × Nat))
    (st : List ChainBucket × Nat)
    (hf : ∀ e ∈ es, f e.1 < st.1.length) :
    ∀ e ∈ es, e ∈ (es.foldl (ChainBucket.attachStep f) st).1.getD (f e.1) ([] : ChainBucket) := by
  induction es generalizing st with
  | nil => intro e he; simp at he
  | cons e' es ih =>
    intro e he
    rw [List.foldl_cons]
    have hlen : (ChainBucket.attachStep f st e').1.length = st.1.length := by
      simp [ChainBucket.attachStep]
    have hf' : ∀ x ∈ es, f x.1 < (ChainBucket.attachStep f st e').1.length :=
      fun x hx => by rw [hlen]; exact hf x (List.mem_cons_of_mem _ hx)
    rcases List.mem_cons.mp he with rfl | hmem
    · apply chainFold_mem_mono f es _ _ _ hf'
      show e ∈ (st.1.set (f e.1) (e :: st.1.getD (f e.1) [])).getD (f e.1) []
      rw [getD_set_self _ _ _ _ (hf e (List.mem_cons_self _ _))]
      exact List.mem_cons_self _ _
    · exact ih _ hf' e hmem

lemma probe_bucket_le (bks : List PlainHashBucket) (i : Nat) :
    (((bks.getD i PlainHashBucket.empty).map.entries : List (Nat × Nat)) : Multiset (Nat × Nat))
      ≤ (probeEntries bks : Multiset (Nat × Nat)) := by
  induction bks generalizing i with
  | nil => simp [PlainHashBucket.empty]
  | cons b bs ih =>
    cases i with
    | zero =>
      simp only [List.getD_cons_zero, probeEntries]
      rw [← Multiset.coe_add]
      exact Multiset.le_add_right _ _
    | succ i =>
      simp only [List.getD_cons_succ, probeEntries]
      rw [← Multiset.coe_add]
      exact le_trans (ih i) (Multiset.le_add_left _ _)

lemma lookup_isSome_iff (l : List (Nat × Nat)) (k : Nat) :
    (l.lookup k).isSome = true ↔ k ∈ l.map Prod.fst := by
  induction l with
  | nil => simp [List.lookup]
  | cons p t ih =>
    obtain ⟨a, b⟩ := p
    by_cases hk : k = a
    · subst hk; simp [List.lookup]
    · have hba : (k == a) = false := by simp [hk]
      simp [List.lookup, hba, hk, ih]

lemma lookup_eq_of_mem_nodup (l : List (Nat × Nat)) (k v : Nat)
    (h : (k, v) ∈ l) (hnd : (l.map Prod.fst).Nodup) : l.lookup k = some v := by
  induction l with
  | nil => simp at h
  | cons p t ih =>
    obtain ⟨a, b⟩ := p
    rcases List.mem_cons.mp h with heq | hmem
    · injection heq with h1 h2
      subst h1; subst h2
      simp [List.lookup]
    · have hk : k ≠ a := by
        rintro rfl
        exact (List.nodup_cons.mp (by simpa using hnd)).1
          (List.mem_map_of_mem Prod.fst hmem)
      have hba : (k == a) = false := by simp [hk]
      have hnd' : (t.map Prod.fst).Nodup :=
        (List.nodup_cons.mp (by simpa using hnd)).2
      simp [List.lookup, hba, ih hmem hnd']

lemma probe_insert_mem_entries (k v : Nat) (b : PlainHashBucket)
    (e : Nat × Nat) (he : e ∈ b.map.entries) :
    e ∈ (PlainHashBucket.insert k v b).2.map.entries := by
  unfold PlainHashBucket.insert
  split
  · exact he
  · exact List.mem_cons_of_mem _ he

lemma probeFold_mem_mono (f : Nat → Nat) (es : List (Nat × Nat))
    (st : List PlainHashBucket × Nat) (i : Nat) (e : Nat × Nat)
    (hf : ∀ e' ∈ es, f e'.1 < st.1.length)
    (he : e ∈ (st.1.getD i PlainHashBucket.empty).map.entries) :
    e ∈ ((es.foldl (PlainHashBucket.reorganizeStep f) st).1.getD i
          PlainHashBucket.empty).map.entries := by
  induction es generalizing st with
  | nil => exact he
  | cons e' es ih =>
    rw [List.foldl_cons]
    have hlen : (PlainHashBucket.reorganizeStep f st e').1.length = st.1.length := by
      simp [PlainHashBucket.reorganizeStep]
    apply ih _ (fun x hx => by rw [hlen]; exact hf x (List.mem_cons_of_mem _ hx))
    show e ∈ ((st.1.set (f e'.1)
        ((PlainHashBucket.insert e'.1 e'.2
          (st.1.getD (f e'.1) PlainHashBucket.empty)).2)).getD i
        PlainHashBucket.empty).map.entries
    by_cases hi : i = f e'.1
    · subst hi
      rw [getD_set_self _ _ _ _ (hf e' (List.mem_cons_self _ _))]
      exact probe_insert_mem_entries _ _ _ _ he
    · rw [getD_set_ne _ _ _ _ _ hi]
      exact he

lemma probeFold_main (f : Nat → Nat) (es : List (Nat × Nat))
    (st : List PlainHashBucket × Nat)
    (hf : ∀ e ∈ es, f e.1 < st.1.length)
    (hnd : (((es.map Prod.fst : List Nat) : Multiset Nat)
        + Multiset.map Prod.fst (probeEntries st.1 : Multiset (Nat × Nat))).Nodup) :
    (probeEntries (es.foldl (PlainHashBucket.reorganizeStep f) st).1 : Multiset (Nat × Nat))
      = (es : Multiset (Nat × Nat)) + (probeEntries st.1 : Multiset (Nat × Nat))
    ∧ ∀ e ∈ es, e ∈ ((es.foldl (PlainHashBucket.reorganizeStep f) st).1.getD (f e.1)
          PlainHashBucket.empty).map.entries := by
  induction es generalizing st with
  | nil =>
    refine ⟨by simp, ?_⟩
    intro e he; simp at he
  | cons e es ih =>
    have hcons : (((e :: es).map Prod.fst : List Nat) : Multiset Nat)
        = e.1 ::ₘ ((es.map Prod.fst : List Nat) : Multiset Nat) := by simp
    have hmemk : e.1 ∉ Multiset.map Prod.fst (probeEntries st.1 : Multiset (Nat × Nat)) := by
      rw [hcons, Multiset.cons_add] at hnd
      exact fun hmem =>
        (Multiset.nodup_cons.mp hnd).1 (Multiset.mem_add.mpr (Or.inr hmem))
    have hsearch : PlainHashBucket.search e.1
        (st.1.getD (f e.1) PlainHashBucket.empty) = false := by
      rw [Bool.eq_false_iff]
      intro htrue
      have hkmem := (lookup_isSome_iff _ _).mp htrue
      obtain ⟨p, hp, hpk⟩ := List.mem_map.mp hkmem
      exact hmemk (hpk ▸ Multiset.mem_map_of_mem Prod.fst
        (Multiset.mem_of_le (probe_bucket_le st.1 (f e.1)) hp))
    have hbranch : (PlainHashBucket.insert e.1 e.2
        (st.1.getD (f e.1) PlainHashBucket.empty)).2
        = PlainHashBucket.insertAux e.1 e.2 (st.1.getD (f e.1) PlainHashBucket.empty) := by
      unfold PlainHashBucket.insert
      rw [hsearch]
      simp
    have hstep : (PlainHashBucket.reorganizeStep f st e).1
        = st.1.set (f e.1)
            (PlainHashBucket.insertAux e.1 e.2 (st.1.getD (f e.1) PlainHashBucket.empty)) := by
      show st.1.set (f e.1)
          ((PlainHashBucket.insert e.1 e.2 (st.1.getD (f e.1) PlainHashBucket.empty)).2) = _
      rw [hbranch]
    have hB : (PlainHashBucket.insertAux e.1 e.2
        (st.1.getD (f e.1) PlainHashBucket.empty)).map.entries
        = e :: (st.1.getD (f e.1) PlainHashBucket.empty).map.entries := by
      simp [PlainHashBucket.insertAux, PlainMap.insertRaw]
    have hset : (probeEntries (PlainHashBucket.reorganizeStep f st e).1 : Multiset (Nat × Nat))
        = e ::ₘ (probeEntries st.1 : Multiset (Nat × Nat)) := by
      rw [hstep]
      exact probe_entries_set_cons _ _ _ _ (hf e (List.mem_cons_self _ _)) hB
    have hlen : (PlainHashBucket.reorganizeStep f st e).1.length = st.1.length := by
      simp [PlainHashBucket.reorganizeStep]
    have hf' : ∀ x ∈ es, f x.1 < (PlainHashBucket.reorganizeStep f st e).1.length :=
      fun x hx => by rw [hlen]; exact hf x (List.mem_cons_of_mem _ hx)
    have hnd' : (((es.map Prod.fst : List Nat) : Multiset Nat)
        + Multiset.map Prod.fst
          (probeEntries (PlainHashBucket.reorganizeStep f st e).1 : Multiset (Nat × Nat))).Nodup := by
      rw [hset, Multiset.map_cons]
      rw [hcons, Multiset.cons_add] at hnd
      rw [show ((es.map Prod.fst : List Nat) : Multiset Nat)
            + (e.1 ::ₘ Multiset.map Prod.fst (probeEntries st.1 : Multiset (Nat × Nat)))
          = e.1 ::ₘ (((es.map Prod.fst : List Nat) : Multiset Nat)
            + Multiset.map Prod.fst (probeEntries st.1 : Multiset (Nat × Nat))) from by
        rw [← Multiset.singleton_add, ← Multiset.singleton_add, add_left_comm]]
      exact hnd
    obtain ⟨ih1, ih2⟩ := ih (PlainHashBucket.reorganizeStep f st e) hf' hnd'
    constructor
    · rw [List.foldl_cons, ih1, hset]
      rw [← Multiset.cons_coe, Multiset.cons_add]
      rw [← Multiset.singleton_add, ← Multiset.singleton_add]
      exact add_left_comm _ _ _
    · intro x hx
      rw [List.foldl_cons]
      rcases List.mem_cons.mp hx with rfl | hmem
      · apply probeFold_mem_mono f es _ _ _ hf'
        rw [hstep, getD_set_self _ _ _ _ (hf x (List.mem_cons_self _ _)), hB]
        exact List.mem_cons_self _ _
      · exact ih2 x hmem

lemma chainEntries_replicate (n : Nat) :
    chainEntries (List.replicate n ([] : ChainBucket)) = [] := by
  induction n with
  | zero => rfl
  | succ n ih => simp [List.replicate_succ, chainEntries, ih]

lemma probeEntries_replicate (n : Nat) :
    probeEntries (List.replicate n PlainHashBucket.empty) = [] := by
  induction n with
  | zero => rfl
  | succ n ih =>
    rw [List.replicate_succ]
    show PlainHashBucket.empty.map.entries
        ++ probeEntries (List.replicate n PlainHashBucket.empty) = []
    rw [ih]
    rfl

lemma lfGT_eq_false_of_lfLT (e b : Nat) (r : ℚ) (h : lfLT e b r = true) :
    lfGT e b r = false := by
  unfold lfLT at h
  unfold lfGT
  by_cases hb : (b == 0) = true
  · rw [if_pos hb] at h
    exact absurd h (by simp)
  · rw [if_neg hb] at h ⊢
    rw [decide_eq_true_eq] at h
    exact decide_eq_false (lt_asymm h)

lemma rehashM_probe_len (m : HashMapState PlainHashBucket) (s : Nat) :
    (rehashM probeOps m s).buckets.length = s := by
  show (probeOps.reorganizeBuckets m.buckets s (hashF s)).1.length = s
  exact probe_reorganize_len m.buckets s (hashF s)

lemma resizeM_probe_spec (m : HashMapState PlainHashBucket) :
    (resizeM probeOps m).buckets.length = 2 * m.buckets.length
    ∧ (resizeM probeOps m).nextRehash = threshold (m.buckets.length * 2) m.rehashPolicy
    ∧ (resizeM probeOps m).hSize = m.buckets.length * 2 := by
  refine ⟨?_, rfl, rfl⟩
  rw [show resizeM probeOps m
      = rehashM probeOps { m with nextRehash := threshold (m.buckets.length * 2) m.rehashPolicy }
          (m.buckets.length * 2) from rfl]
  rw [rehashM_probe_len]
  ring

/-! The claims. -/

/-- C3: rehash preserves membership — evaluated against the modelled
intent of the ill-formed members.  For any bucket array whose stored keys
are pairwise distinct and any positive target size, the bucket
reorganization redistributes all live entries into the new bucket array
without losing or duplicating any entry (the entry lists before and after
are permutations of one another) and places each entry in the bucket the
new hash function selects — for the chain-bucket strategy (node transfer)
this holds even without the distinctness hypothesis; and through the
probe-bucket map's `_rehash`, every previously stored key is found by
`search` afterwards and the map-level `get` returns the originally
inserted value.  The `get` conclusion is necessarily stated through
`getIntendedM`, because the in-src `_chainHashingMapT::get` is ill-formed
(the C2 defect) — and for a ChainBucket-backed map the claim's `search`
conclusion would likewise run through the ill-formed
`LinkedListBucketT::search` (the C6 defect) — so the claim as written
cannot hold on the code, only on its documented intent. -/
theorem c3_reorganize_preserves_entries
    (old : List ChainBucket) (m : HashMapState PlainHashBucket) (s : Nat)
    (hs : 0 < s)
    (hpd : ((probeEntries m.buckets).map Prod.fst).Nodup) :
    (chainEntries (ChainBucket.reorganizeBuckets old s (hashF s)).1).Perm (chainEntries old)
    ∧ (∀ e ∈ chainEntries old,
        e ∈ (ChainBucket.reorganizeBuckets old s (hashF s)).1.getD (hashF s e.1) ([] : ChainBucket))
    ∧ (probeEntries (rehashM probeOps m s).buckets).Perm (probeEntries m.buckets)
    ∧ (∀ e ∈ probeEntries m.buckets,
        searchM probeOps e.1 (rehashM probeOps m s) = true
        ∧ (getIntendedM probeOps e.1 (rehashM probeOps m s)).1 = e.2) := by
  have hmod : ∀ k : Nat, hashF s k < s := fun k => Nat.mod_lt _ hs
  -- the chain strategy
  have hcb : ChainBucket.reorganizeBuckets old s (hashF s)
      = (chainEntries old).foldl (ChainBucket.attachStep (hashF s))
          (List.replicate s ([] : ChainBucket), 0) := by
    unfold ChainBucket.reorganizeBuckets
    rw [foldl_chain_flatten]
  have hclen : (List.replicate s ([] : ChainBucket), (0 : Nat)).1.length = s := by simp
  have hchf : ∀ e ∈ chainEntries old,
      hashF s e.1 < (List.replicate s ([] : ChainBucket), (0 : Nat)).1.length := by
    intro e _; rw [hclen]; exact hmod e.1
  have hcperm : (chainEntries (ChainBucket.reorganizeBuckets old s (hashF s)).1).Perm
      (chainEntries old) := by
    rw [hcb]
    apply Multiset.coe_eq_coe.mp
    rw [chainFold_entries _ _ _ hchf]
    show _ = (chainEntries old : Multiset (Nat × Nat))
    rw [show (List.replicate s ([] : ChainBucket), (0 : Nat)).1
        = List.replicate s ([] : ChainBucket) from rfl]
    rw [chainEntries_replicate]
    simp
  have hcmem : ∀ e ∈ chainEntries old,
      e ∈ (ChainBucket.reorganizeBuckets old s (hashF s)).1.getD (hashF s e.1)
        ([] : ChainBucket) := by
    intro e he
    rw [hcb]
    exact chainFold_mem _ _ _ hchf e he
  -- the probe strategy
  have hpb : PlainHashBucket.reorganizeBuckets m.buckets s (hashF s)
      = (probeEntries m.buckets).foldl (PlainHashBucket.reorganizeStep (hashF s))
          (List.replicate s PlainHashBucket.empty, 0) := by
    unfold PlainHashBucket.reorganizeBuckets
    rw [foldl_probe_flatten]
  have hphf : ∀ e ∈ probeEntries m.buckets,
      hashF s e.1 < (List.replicate s PlainHashBucket.empty, (0 : Nat)).1.length := by
    intro e _; simpa using hmod e.1
  have hpnd : ((((probeEntries m.buckets).map Prod.fst : List Nat) : Multiset Nat)
      + Multiset.map Prod.fst
        (probeEntries (List.replicate s PlainHashBucket.empty, (0 : Nat)).1 : Multiset (Nat × Nat))).Nodup := by
    rw [show (List.replicate s PlainHashBucket.empty, (0 : Nat)).1
        = List.replicate s PlainHashBucket.empty from rfl]
    rw [probeEntries_replicate]
    simpa using hpd
  obtain ⟨hpeq, hpmem⟩ := probeFold_main (hashF s) (probeEntries m.buckets)
    (List.replicate s PlainHashBucket.empty, 0) hphf hpnd
  have hpentries : (probeEntries (rehashM probeOps m s).buckets : Multiset (Nat × Nat))
      = (probeEntries m.buckets : Multiset (Nat × Nat)) := by
    show (probeEntries (probeOps.reorganizeBuckets m.buckets s (hashF s)).1 : Multiset (Nat × Nat)) = _
    rw [show probeOps.reorganizeBuckets m.buckets s (hashF s)
        = PlainHashBucket.reorganizeBuckets m.buckets s (hashF s) from rfl]
    rw [hpb, hpeq]
    rw [show (List.replicate s PlainHashBucket.empty, (0 : Nat)).1
        = List.replicate s PlainHashBucket.empty from rfl]
    rw [probeEntries_replicate]
    simp
  have hbmem : ∀ e ∈ probeEntries m.buckets,
      e ∈ ((rehashM probeOps m s).buckets.getD (hashF s e.1)
        PlainHashBucket.empty).map.entries := by
    intro e he
    show e ∈ ((probeOps.reorganizeBuckets m.buckets s (hashF s)).1.getD (hashF s e.1)
        PlainHashBucket.empty).map.entries
    rw [show probeOps.reorganizeBuckets m.buckets s (hashF s)
        = PlainHashBucket.reorganizeBuckets m.buckets s (hashF s) from rfl]
    rw [hpb]
    exact hpmem e he
  refine ⟨hcperm, hcmem, Multiset.coe_eq_coe.mp hpentries, ?_⟩
  intro e he
  have hnewnd : (((rehashM probeOps m s).buckets.getD (hashF s e.1)
      PlainHashBucket.empty).map.entries.map Prod.fst).Nodup := by
    have hle := probe_bucket_le (rehashM probeOps m s).buckets (hashF s e.1)
    have htot : (Multiset.map Prod.fst
        (probeEntries (rehashM probeOps m s).buckets : Multiset (Nat × Nat))).Nodup := by
      rw [hpentries]
      simpa using hpd
    have := Multiset.nodup_of_le (Multiset.map_le_map hle) htot
    simpa using this
  have hlook : (((rehashM probeOps m s).buckets.getD (hashF s e.1)
      PlainHashBucket.empty).map.entries).lookup e.1 = some e.2 := by
    apply lookup_eq_of_mem_nodup _ e.1 e.2 _ hnewnd
    rw [show ((e.1 : Nat), (e.2 : Nat)) = e from rfl]
    exact hbmem e he
  constructor
  · show (((rehashM probeOps m s).buckets.getD (hashF s e.1)
        PlainHashBucket.empty).map.lookup e.1).isSome = true
    rw [show ((rehashM probeOps m s).buckets.getD (hashF s e.1)
        PlainHashBucket.empty).map.lookup e.1
      = (((rehashM probeOps m s).buckets.getD (hashF s e.1)
        PlainHashBucket.empty).map.entries).lookup e.1 from rfl]
    rw [hlook]
    rfl
  · show (((rehashM probeOps m s).buckets.getD (hashF s e.1)
        PlainHashBucket.empty).map.lookup e.1).getD 0 = e.2
    rw [show ((rehashM probeOps m s).buckets.getD (hashF s e.1)
        PlainHashBucket.empty).map.lookup e.1
      = (((rehashM probeOps m s).buckets.getD (hashF s e.1)
        PlainHashBucket.empty).map.entries).lookup e.1 from rfl]
    rw [hlook]
    rfl

/-- C3 witness: the theorem at a concrete input — a probe-bucket map of
initial size 4 holding key 3, redistributed to 2 buckets, still finds key 3
with its original item 30. -/
theorem c3_reorganize_preserves_entries_witness :
    searchM probeOps 3 (rehashM probeOps (insertM probeOps 3 30 (mkMap probeOps 4)).2 2) = true
    ∧ (getIntendedM probeOps 3
        (rehashM probeOps (insertM probeOps 3 30 (mkMap probeOps 4)).2 2)).1 = 30 :=
  (c3_reorganize_preserves_entries [[(5, 50)], [(6, 60)]]
      (insertM probeOps 3 30 (mkMap probeOps 4)).2 2 (by decide) (by decide)).2.2.2
    (3, 30) (by decide)

/-- C5: whenever a successful insert makes the element count exceed
`_nextRehash = currentSize * rehashPolicy`, the map immediately doubles its
bucket-array capacity, recomputes the threshold for the new size and
installs the new hash-function size; and concretely, inserting keys 1..20
into a map with `initialSize = 8` and `rehashPolicy = 1.0` grows the
capacity past 8 (so at least one resize occurred), ends with
`getMaxBucketSize() = 32 ≥ 16`, and `search(k)` is `true` for every
`k ∈ 1..20`. -/
theorem c5_insert_triggers_resize :
    (∀ (m : HashMapState PlainHashBucket) (k v : Nat),
      (insertM probeOps k v m).1 = true →
      m.elemCount + 1 > m.nextRehash →
      (insertM probeOps k v m).2.buckets.length = 2 * m.buckets.length
      ∧ (insertM probeOps k v m).2.nextRehash
          = threshold (m.buckets.length * 2) m.rehashPolicy
      ∧ (insertM probeOps k v m).2.hSize = m.buckets.length * 2)
    ∧ (8 < ((List.range' 1 20).foldl (fun m k => (insertM probeOps k k m).2)
          (mkMap probeOps 8)).buckets.length
      ∧ 16 ≤ ((List.range' 1 20).foldl (fun m k => (insertM probeOps k k m).2)
          (mkMap probeOps 8)).buckets.length
      ∧ ((List.range' 1 20).foldl (fun m k => (insertM probeOps k k m).2)
          (mkMap probeOps 8)).buckets.length = 32
      ∧ ((List.range' 1 20).all fun k =>
          searchM probeOps k ((List.range' 1 20).foldl
            (fun m k => (insertM probeOps k k m).2) (mkMap probeOps 8))) = true) := by
  constructor
  · intro m k v h1 h2
    simp only [insertM] at h1 ⊢
    by_cases hc : (probeOps.insert k v (bucketAt probeOps m (hashF m.hSize k))).1 = true
    · rw [hc]
      simp only [if_true]
      rw [if_pos h2]
      obtain ⟨ha, hb, hcc⟩ := resizeM_probe_spec
        { m with
          buckets := m.buckets.set (hashF m.hSize k)
            (probeOps.insert k v (bucketAt probeOps m (hashF m.hSize k))).2
          bucketCount :=
            if probeOps.size (probeOps.insert k v (bucketAt probeOps m (hashF m.hSize k))).2 == 1
            then m.bucketCount + 1 else m.bucketCount
          elemCount := m.elemCount + 1 }
      rw [ha, hb, hcc]
      simp
    · rw [Bool.not_eq_true] at hc
      rw [hc] at h1
      simp at h1
  · exact ⟨by decide, by decide, by decide, by decide⟩

/-- C7 (amended): `rehash(desiredRatio, maxTries)` performs up to
`maxTries` same-capacity redistributions while `load_factor() >
desiredRatio`, never changes the bucket-array capacity, and returns `true`
exactly when the final load factor is STRICTLY below `desiredRatio` (at
exact equality the ratio is met but the call returns `false`); in
particular, on a map whose load factor is already strictly below the ratio
it returns `true` immediately and leaves the state unchanged. -/
theorem c7_rehash_loop_spec :
    (∀ (m : HashMapState PlainHashBucket) (r : ℚ) (t : Nat),
      (rehashTries probeOps r t m).buckets.length = m.buckets.length)
    ∧ (∀ (m : HashMapState PlainHashBucket) (r : ℚ) (t : Nat),
      (rehashPub probeOps m r t).1
        = lfLT (rehashPub probeOps m r t).2.elemCount
            (rehashPub probeOps m r t).2.bucketCount r)
    ∧ (∀ (m : HashMapState PlainHashBucket) (r : ℚ) (t : Nat),
      lfGT m.elemCount m.bucketCount r = false →
      rehashPub probeOps m r t = (lfLT m.elemCount m.bucketCount r, m))
    ∧ (∀ (m : HashMapState PlainHashBucket) (r : ℚ) (t : Nat),
      lfLT m.elemCount m.bucketCount r = true →
      (rehashPub probeOps m r t).1 = true ∧ (rehashPub probeOps m r t).2 = m) := by
  have h3 : ∀ (m : HashMapState PlainHashBucket) (r : ℚ) (t : Nat),
      lfGT m.elemCount m.bucketCount r = false →
      rehashPub probeOps m r t = (lfLT m.elemCount m.bucketCount r, m) := by
    intro m r t h
    cases t with
    | zero => rfl
    | succ t =>
      unfold rehashPub rehashTries
      rw [h]
      simp
  have h1 : ∀ (t : Nat) (m : HashMapState PlainHashBucket) (r : ℚ),
      (rehashTries probeOps r t m).buckets.length = m.buckets.length := by
    intro t
    induction t with
    | zero => intro m r; rfl
    | succ t ih =>
      intro m r
      show (if lfGT m.elemCount m.bucketCount r = true then
          rehashTries probeOps r t (rehashM probeOps m m.buckets.length)
        else m).buckets.length = m.buckets.length
      by_cases h : lfGT m.elemCount m.bucketCount r = true
      · rw [if_pos h, ih, rehashM_probe_len]
      · rw [if_neg h]
  refine ⟨fun m r t => h1 t m r, fun m r t => rfl, h3, fun m r t h => ?_⟩
  rw [h3 m r t (lfGT_eq_false_of_lfLT _ _ _ h)]
  exact ⟨h, rfl⟩

/-- C7 counterexample: a reachable state with load factor exactly equal to
`desiredRatio = 1.0` (one element in one active bucket).  The ratio is met
— `load_factor() > 1` is false, so no redistribution is even attempted and
the state is returned unchanged — yet `rehash(1.0, 3)` returns `false`,
refuting "returns true exactly when the target ratio was ultimately met". -/
theorem c7_rehash_met_cex :
    lfGT (insertM probeOps 1 1 (mkMap probeOps 8)).2.elemCount
        (insertM probeOps 1 1 (mkMap probeOps 8)).2.bucketCount 1 = false
    ∧ (rehashPub probeOps (insertM probeOps 1 1 (mkMap probeOps 8)).2 1 3).1 = false
    ∧ (rehashPub probeOps (insertM probeOps 1 1 (mkMap probeOps 8)).2 1 3).2
        = (insertM probeOps 1 1 (mkMap probeOps 8)).2 := by
  exact ⟨by decide, by decide, by decide⟩

/-- C10: the map-level `operator[]` delegates to the bucket's
auto-vivifying `safeGet`: on a key absent from its target bucket it stores
a default-valued entry in that bucket and returns the default item, while
the map-level element counter, active-bucket counter, rehash barrier and
bucket-array capacity are left unchanged — it can never trigger a
resize/rehash; for the probe bucket even the bucket-local size is
unchanged.  Shown for both bucket strategies, plus a concrete run on a
fresh chain-bucket map. -/
theorem c10_opIndex_frame :
    (∀ (m : HashMapState ChainBucket) (k : Nat),
      (opIndexM chainOps k m).2.elemCount = m.elemCount
      ∧ (opIndexM chainOps k m).2.bucketCount = m.bucketCount
      ∧ (opIndexM chainOps k m).2.nextRehash = m.nextRehash
      ∧ (opIndexM chainOps k m).2.buckets.length = m.buckets.length)
    ∧ (∀ (m : HashMapState ChainBucket) (k : Nat),
      hashF m.hSize k < m.buckets.length →
      (bucketAt chainOps m (hashF m.hSize k)).find? (fun nd => nd.1 == k) = none →
      (opIndexM chainOps k m).1 = 0
      ∧ (k, 0) ∈ bucketAt chainOps (opIndexM chainOps k m).2 (hashF m.hSize k))
    ∧ (∀ (m : HashMapState PlainHashBucket) (k : Nat),
      (opIndexM probeOps k m).2.elemCount = m.elemCount
      ∧ (opIndexM probeOps k m).2.bucketCount = m.bucketCount
      ∧ (opIndexM probeOps k m).2.nextRehash = m.nextRehash
      ∧ (opIndexM probeOps k m).2.buckets.length = m.buckets.length)
    ∧ (∀ (m : HashMapState PlainHashBucket) (k : Nat),
      hashF m.hSize k < m.buckets.length →
      (bucketAt probeOps m (hashF m.hSize k)).map.lookup k = none →
      (opIndexM probeOps k m).1 = 0
      ∧ (k, 0) ∈ (bucketAt probeOps (opIndexM probeOps k m).2 (hashF m.hSize k)).map.entries
      ∧ PlainHashBucket.size (bucketAt probeOps (opIndexM probeOps k m).2 (hashF m.hSize k))
          = PlainHashBucket.size (bucketAt probeOps m (hashF m.hSize k)))
    ∧ ((opIndexM chainOps 5 (mkMap chainOps 8)).1 = 0
      ∧ (opIndexM chainOps 5 (mkMap chainOps 8)).2.elemCount = 0
      ∧ (opIndexM chainOps 5 (mkMap chainOps 8)).2.bucketCount = 0
      ∧ (opIndexM chainOps 5 (mkMap chainOps 8)).2.buckets.length = 8
      ∧ searchM chainOps 5 (opIndexM chainOps 5 (mkMap chainOps 8)).2 = true) := by
  refine ⟨?_, ?_, ?_, ?_, by decide, by decide, by decide, by decide, by decide⟩
  · intro m k
    exact ⟨rfl, rfl, rfl, by simp [opIndexM]⟩
  · intro m k hlt hnone
    have hpr : chainOps.safeGet k (bucketAt chainOps m (hashF m.hSize k))
        = (0, (k, 0) :: bucketAt chainOps m (hashF m.hSize k)) := by
      show ChainBucket.safeGet k (bucketAt chainOps m (hashF m.hSize k)) = _
      unfold ChainBucket.safeGet
      rw [hnone]
    constructor
    · show (chainOps.safeGet k (bucketAt chainOps m (hashF m.hSize k))).1 = 0
      rw [hpr]
    · show (k, 0) ∈ (m.buckets.set (hashF m.hSize k)
        (chainOps.safeGet k (bucketAt chainOps m (hashF m.hSize k))).2).getD
          (hashF m.hSize k) chainOps.empty
      rw [hpr, getD_set_self _ _ _ _ hlt]
      exact List.mem_cons_self _ _
  · intro m k
    exact ⟨rfl, rfl, rfl, by simp [opIndexM]⟩
  · intro m k hlt hnone
    have hpr : probeOps.safeGet k (bucketAt probeOps m (hashF m.hSize k))
        = (0, { bucketAt probeOps m (hashF m.hSize k) with
            map := (bucketAt probeOps m (hashF m.hSize k)).map.insertRaw k 0 }) := by
      show PlainHashBucket.safeGet k (bucketAt probeOps m (hashF m.hSize k)) = _
      unfold PlainHashBucket.safeGet
      rw [hnone]
    refine ⟨?_, ?_, ?_⟩
    · show (probeOps.safeGet k (bucketAt probeOps m (hashF m.hSize k))).1 = 0
      rw [hpr]
    · show (k, 0) ∈ ((m.buckets.set (hashF m.hSize k)
        (probeOps.safeGet k (bucketAt probeOps m (hashF m.hSize k))).2).getD
          (hashF m.hSize k) probeOps.empty).map.entries
      rw [hpr, getD_set_self _ _ _ _ hlt]
      exact List.mem_cons_self _ _
    · show PlainHashBucket.size ((m.buckets.set (hashF m.hSize k)
        (probeOps.safeGet k (bucketAt probeOps m (hashF m.hSize k))).2).getD
          (hashF m.hSize k) probeOps.empty) = _
      rw [hpr, getD_set_self _ _ _ _ hlt]
      rfl

/-- C1: evaluation of the count-consistency defect.  On a fresh
default-bucket map of size 8, `insert(1, 1)` followed by `safeRemove(1)`
removes the only stored entry (the bucket array holds no entry afterwards)
yet `size()` still returns 1, because neither `remove` nor `safeRemove`
ever decrements the map-level `_elemCount`; and `operator[](5)` on a fresh
map stores the entry `(5, 0)` in a bucket while both `size()` and
`getBucketCount()` stay 0, because `operator[]` bypasses both counters.
So `size()` does not equal the number of distinct keys stored and
`getBucketCount()` does not equal the number of nonempty buckets. -/
theorem c1_count_consistency_fails_eval :
    (safeRemoveM probeOps 1 (insertM probeOps 1 1 (mkMap probeOps 8)).2).1 = true
    ∧ (safeRemoveM probeOps 1 (insertM probeOps 1 1 (mkMap probeOps 8)).2).2.elemCount = 1
    ∧ probeEntries (safeRemoveM probeOps 1 (insertM probeOps 1 1 (mkMap probeOps 8)).2).2.buckets = []
    ∧ (opIndexM probeOps 5 (mkMap probeOps 8)).2.elemCount = 0
    ∧ (opIndexM probeOps 5 (mkMap probeOps 8)).2.bucketCount = 0
    ∧ probeEntries (opIndexM probeOps 5 (mkMap probeOps 8)).2.buckets = [(5, 0)] := by
  exact ⟨by decide, by decide, by decide, by decide, by decide, by decide⟩

/-- C2: evaluation of duplicate-insert idempotence against the modelled
intent of `get`.  `insert(1, 10)` on a fresh map returns `true`; a second
`insert(1, 20)` returns `false` and leaves the whole map state unchanged;
and the intended map-level `get(1)` (the source's `_buckets.get(key)` is
ill-formed — see `getIntendedM`) still returns 10. -/
theorem c2_duplicate_insert_eval :
    (insertM probeOps 1 10 (mkMap probeOps 8)).1 = true
    ∧ (insertM probeOps 1 20 (insertM probeOps 1 10 (mkMap probeOps 8)).2).1 = false
    ∧ (insertM probeOps 1 20 (insertM probeOps 1 10 (mkMap probeOps 8)).2).2
        = (insertM probeOps 1 10 (mkMap probeOps 8)).2
    ∧ (getIntendedM probeOps 1 (insertM probeOps 1 10 (mkMap probeOps 8)).2).1 = 10 := by
  exact ⟨by decide, by decide, by decide, by decide⟩

/-- C4: evaluation of `safeRemove` on a missing key.  On a fresh (empty)
default-bucket map of size 8, `safeRemove(999)` returns `false` and
`size()` stays 0 as the claim says, but the map is NOT left unchanged: the
target bucket has size 0 after the call, so `_bucketCount -= 1` fires
although nothing was removed, and the `size_t` counter wraps around to
`2^64 - 1`. -/
theorem c4_safeRemove_missing_eval :
    (safeRemoveM probeOps 999 (mkMap probeOps 8)).1 = false
    ∧ (safeRemoveM probeOps 999 (mkMap probeOps 8)).2.elemCount = 0
    ∧ (safeRemoveM probeOps 999 (mkMap probeOps 8)).2.bucketCount = sizeTBound - 1
    ∧ (safeRemoveM probeOps 999 (mkMap probeOps 8)).2 ≠ mkMap probeOps 8 := by
  exact ⟨by decide, by decide, by decide, by decide⟩

/-- C6: evaluation of chain-bucket auto-vivification against the modelled
intent of `search`.  Both `get` and `safeGet` on an absent key create a
node holding the default item 0 and return it, at the bucket level and
through the map's `operator[]`; the subsequent `search` finds the key —
using the modelled intent of `LinkedListBucketT::search`, since the
source's `root->key` read is ill-formed (the field is `_key`). -/
theorem c6_auto_vivify_eval :
    ChainBucket.get 5 [] = (0, [(5, 0)])
    ∧ ChainBucket.safeGet 5 [] = (0, [(5, 0)])
    ∧ ChainBucket.search 5 (ChainBucket.get 5 []).2 = true
    ∧ (opIndexM chainOps 5 (mkMap chainOps 8)).1 = 0
    ∧ searchM chainOps 5 (opIndexM chainOps 5 (mkMap chainOps 8)).2 = true := by
  exact ⟨by decide, by decide, by decide, by decide, by decide⟩

end ChainHash
